import Mathlib

/-!
Verification of the dependency-collection, deduplication, caching and
IR-transformation pipeline of `numba/hip/codegen.py`.

The Python source is shallowly embedded: Python values appearing in tuple
dependency specifications become the inductive type `PyVal`; the recursive
`HIPCodeLibrary` dependency tree becomes the mutual inductive `Lib`/`Dep`
(each constructor carries the Python object id where `id()` is used by the
source); stateful methods become explicit state passing; code that raises
returns `Except` or an error component.  External collaborators (the file
system, the HIPRTC compiler, the LLVM linker) are parameters of the
corresponding definitions.
-/

/-- Python values that can appear as entries of a tuple link-time dependency
specification in `_LinkerDependencyHandler._handle_tuple`: strings, ints,
`None`, lists of option strings, and bytes-like buffers. -/
inductive PyVal where
  | vStr : String → PyVal
  | vInt : Int → PyVal
  | vNone : PyVal
  | vList : List String → PyVal
  | vBytes : List Nat → PyVal
deriving DecidableEq

/-- Python truthiness (`if x:`) for the modelled values: empty string, zero,
`None`, empty list and empty bytes are falsy. -/
def PyVal.truthy : PyVal → Bool
  | PyVal.vStr s => decide (s ≠ "")
  | PyVal.vInt n => decide (n ≠ 0)
  | PyVal.vNone => false
  | PyVal.vList l => decide (l ≠ [])
  | PyVal.vBytes b => decide (b ≠ [])

/-- Models Python's `shlex.split` (standard library, external to the repo) for
the whitespace-separated compiler-option strings the source feeds it:
splits on blanks and discards empty tokens. -/
def shlexSplit (s : String) : List String :=
  (s.splitOn " ").filter (fun t => decide (t ≠ ""))

mutual
/-- A link-time dependency of a `HIPCodeLibrary` (`codegen.py` lines 525-536):
another code library, a file path (`str`), or a tuple specification.
`tup` carries the Python object id of the tuple (used as deduplication key by
`get_linker_inputs` via `id(dependency)`) together with the tuple entries. -/
inductive Dep where
  | lib : Lib → Dep
  | path : String → Dep
  | tup : Nat → List PyVal → Dep
/-- The dependency-relevant state of a `HIPCodeLibrary`: its Python object id
(`id()`-based deduplication key), its `_finalized` flag, and its ordered
`_linking_dependencies` list. -/
inductive Lib where
  | mk : Nat → Bool → List Dep → Lib
end

/-- The `_linking_dependencies` list of a library. -/
def Lib.deps : Lib → List Dep
  | Lib.mk _ _ ds => ds

/-- The `_finalized` flag of a library. -/
def Lib.finalized : Lib → Bool
  | Lib.mk _ f _ => f

/-- The Python object id of a library. -/
def Lib.objId : Lib → Nat
  | Lib.mk i _ _ => i

mutual
/-- `HIPCodeLibrary._walk_linking_dependencies(library, post_order)`
(lines 589-622): yields `library` first (pre-order) or last (post-order) and
walks `library._linking_dependencies` in insertion order, recursing into
nested code libraries (the recursive call passes no `post_order` argument, so
nested libraries are always walked in pre-order) and yielding file paths and
tuples directly. -/
def _walk_linking_dependencies : Lib → Bool → List Dep
  | Lib.mk i f ds, post_order =>
    (if post_order then [] else [Dep.lib (Lib.mk i f ds)])
      ++ _walk_deps_list ds
      ++ (if post_order then [Dep.lib (Lib.mk i f ds)] else [])
/-- The `for mod in library._linking_dependencies` loop body of
`_walk_linking_dependencies`: code libraries are recursed into (pre-order),
paths and tuples are yielded directly. -/
def _walk_deps_list : List Dep → List Dep
  | [] => []
  | Dep.lib l :: rest => _walk_linking_dependencies l false ++ _walk_deps_list rest
  | Dep.path s :: rest => Dep.path s :: _walk_deps_list rest
  | Dep.tup j t :: rest => Dep.tup j t :: _walk_deps_list rest
end

/-- The loop of `_LinkerDependencyHandler._remove_duplicates` (lines 380-389):
traverses the tagged list in reverse, appending an entry to the result when
its key has not been seen yet in the reverse traversal, and always adding the
key to the seen set. -/
def _remove_duplicates_loop {κ α : Type} [DecidableEq κ] :
    List (κ × α) → List κ → List α
  | [], _ => []
  | (k, a) :: rest, dep_ids =>
    (if k ∈ dep_ids then [] else [a]) ++ _remove_duplicates_loop rest (k :: dep_ids)

/-- `_LinkerDependencyHandler._remove_duplicates` (lines 380-389): removes
duplicates from an ordered list of `(dep_id, dep_mod)` tuples, scanning from
the end (`reversed(unprocessed_result)`) and reversing the result back. -/
def _remove_duplicates {κ α : Type} [DecidableEq κ] (unprocessed_result : List (κ × α)) :
    List α :=
  (_remove_duplicates_loop unprocessed_result.reverse []).reverse

/-- Specification written from the claim's words: keep, for each identity,
its earliest occurrence in the original order and drop every later
occurrence.  Used only to compare `_remove_duplicates` against the claimed
behaviour. -/
def keepEarliestSpec {κ α : Type} [DecidableEq κ] : List (κ × α) → List κ → List α
  | [], _ => []
  | (k, a) :: rest, seen =>
    if k ∈ seen then keepEarliestSpec rest seen else a :: keepEarliestSpec rest (k :: seen)

/-- Specification of keeping, for each identity, its latest occurrence in the
original order: an entry is kept exactly when its key does not occur again
later in the list. -/
def keepLatestSpec {κ α : Type} [DecidableEq κ] : List (κ × α) → List α
  | [] => []
  | (k, a) :: rest =>
    if k ∈ rest.map Prod.fst then keepLatestSpec rest else a :: keepLatestSpec rest

/-- Deduplication keys used by `_LinkerDependencyHandler.get_linker_inputs`:
`id(dependency)` (a Python object id, here a `Nat`) for code libraries and
tuples, the path string itself for file dependencies. -/
inductive DepKey where
  | obj : Nat → DepKey
  | pathKey : String → DepKey
deriving DecidableEq

/-- The `dep_id` tag attached by `add_` in `get_linker_inputs`
(lines 249-288): file paths are tagged with the path string, code libraries
and tuples with their object id (`dep_id` stays `None` for them, so `add_`
falls back to `id(dependency)`). -/
def depId : Dep → DepKey
  | Dep.lib l => DepKey.obj l.objId
  | Dep.path s => DepKey.pathKey s
  | Dep.tup j _ => DepKey.obj j

/-- `_LinkerDependencyHandler.get_linker_inputs` with
`remove_duplicates=True` (lines 232-294): walks the library pre-order, tags
every walked dependency with its `dep_id`, resolves it to a linker input, and
removes duplicates.  The resolution of one dependency to a compiled module
(reading files, HIPRTC compilation, the linker cache) involves only external
collaborators and is abstracted as a map `resolve` applied to the walked
node; tagging and ordering follow the source exactly. -/
def get_linker_inputs {μ : Type} (resolve : Dep → μ) (library : Lib) : List μ :=
  _remove_duplicates
    ((_walk_linking_dependencies library false).map (fun d => (depId d, resolve d)))

/-- The errors `_LinkerDependencyHandler._handle_tuple` (lines 391-475) can
raise.  `tooFewEntries`, `lenEntryNotInt`, `kindEntryNotHip`,
`optsWrongType` and `tooManyEntries` are the five `ValueError`s of the
source; `unboundLocalMaxLen` models the Python `UnboundLocalError` raised at
`if len(dep) > max_len` when no branch assigned `max_len`; `pathNotStr`
models the `TypeError` Python's `open` raises when a tuple interpreted as a
file specification has a non-string first entry. -/
inductive TupleErr where
  | tooFewEntries : TupleErr
  | lenEntryNotInt : TupleErr
  | kindEntryNotHip : TupleErr
  | optsWrongType : Nat → TupleErr
  | tooManyEntries : Nat → TupleErr
  | unboundLocalMaxLen : TupleErr
  | pathNotStr : TupleErr
deriving DecidableEq

/-- Whether the message of a `_handle_tuple` error includes the
`valid_formats` listing of the six valid tuple specification formats: every
`ValueError` except the fewer-than-two-entries one appends `valid_formats`;
the modelled `UnboundLocalError`/`TypeError` carry no such listing. -/
def TupleErr.enumeratesValidFormats : TupleErr → Bool
  | TupleErr.tooFewEntries => false
  | TupleErr.lenEntryNotInt => true
  | TupleErr.kindEntryNotHip => true
  | TupleErr.optsWrongType _ => true
  | TupleErr.tooManyEntries _ => true
  | TupleErr.unboundLocalMaxLen => false
  | TupleErr.pathNotStr => false

/-- The value `_handle_tuple` returns on success:
`((buf, buf_len), input_kind, hip_opts)`.  `buf_len` is kept as the raw
Python value (`None` or an int for buffers, `None` for files), and
`hip_opts` as the final Python value (`None` as passed through, a list after
`shlex.split` of a string, or an untouched falsy value). -/
structure TupleParse where
  buf : PyVal
  buf_len : PyVal
  input_kind : String
  hip_opts : PyVal
deriving DecidableEq

/-- Whether the second tuple entry selects the file-specification
interpretation: `isinstance(dep[1], str) and dep[1] in ("ll", "hip")`
(line 432). -/
def isFilepathForm (dep : List PyVal) : Bool :=
  dep.getD 1 PyVal.vNone == PyVal.vStr "ll" || dep.getD 1 PyVal.vNone == PyVal.vStr "hip"

/-- The common tail of `_handle_tuple` (lines 463-475): processes `hip_opts`
(type check and `shlex.split` when it is truthy), then checks
`len(dep) > max_len` — which is a Python `UnboundLocalError` when `max_len`
was never assigned (the case of a buffer specification of arity 3 with kind
"hip") — and returns `((buf, buf_len), input_kind, hip_opts)`. -/
def _handle_tuple_tail (dep : List PyVal) (buf buf_len : PyVal) (input_kind : String)
    (max_len : Option Nat) (hip_opts : PyVal) : Except TupleErr TupleParse :=
  let processed : Except TupleErr PyVal :=
    if hip_opts.truthy then
      match hip_opts with
      | PyVal.vStr s => Except.ok (PyVal.vList (shlexSplit s))
      | PyVal.vList l => Except.ok (PyVal.vList l)
      | _ => Except.error (TupleErr.optsWrongType (max_len.getD 0))
    else Except.ok hip_opts
  match processed with
  | Except.error e => Except.error e
  | Except.ok opts =>
    match max_len with
    | none => Except.error TupleErr.unboundLocalMaxLen
    | some m =>
      if m < dep.length then Except.error (TupleErr.tooManyEntries m)
      else Except.ok ⟨buf, buf_len, input_kind, opts⟩

/-- The file-specification branch of `_handle_tuple` (lines 433-444): reads
the file (recorded in the returned trace of file reads), keeps `buf_len`
as `None`, sets `input_kind` from the kind entry, and for kind "hip" sets
`max_len = 3` and takes `dep[2]` as options when `len(dep) >= 3`. -/
def _handle_tuple_filepath (readFile : String → List Nat) :
    List PyVal → Except TupleErr TupleParse × List String
  | d0 :: d1 :: rest =>
    match d0 with
    | PyVal.vStr filepath =>
      let buf := PyVal.vBytes (readFile filepath)
      let input_kind := match d1 with
        | PyVal.vStr k => k
        | _ => "ll"
      let step :=
        if input_kind == "hip" then
          -- `if len(dep) >= 3: hip_opts = dep[2]`
          _handle_tuple_tail (d0 :: d1 :: rest) buf PyVal.vNone input_kind (some 3)
            (match rest with
             | o :: _ => o
             | [] => PyVal.vNone)
        else
          _handle_tuple_tail (d0 :: d1 :: rest) buf PyVal.vNone input_kind (some 2)
            PyVal.vNone
      (step, [filepath])
    | _ => (Except.error TupleErr.pathNotStr, [])
  | _ =>
    -- unreachable: `_handle_tuple` has already checked `len(dep) >= 2`
    (Except.error TupleErr.tooFewEntries, [])

/-- The buffer-specification branch of `_handle_tuple` (lines 445-462):
checks that the length entry is an int or `None`, that a third entry is the
literal "hip", assigns `max_len` only for arity ≤ 2 (`max_len = 2`) or
arity > 3 (`max_len = 4`, with `hip_opts = dep[3]`) — for an arity-3 buffer
specification `max_len` stays unassigned — and leaves `input_kind` at its
initial value "ll".  No file is read in this branch. -/
def _handle_tuple_buffer : List PyVal → Except TupleErr TupleParse
  | buf :: buf_len :: rest =>
    (match buf_len with
     | PyVal.vNone | PyVal.vInt _ =>
       (match rest with
        | [] =>
          -- `len(dep) <= 2`: `max_len = 2`
          _handle_tuple_tail (buf :: buf_len :: rest) buf buf_len "ll" (some 2) PyVal.vNone
        | k :: rest2 =>
          -- `len(dep) > 2`: the third entry must be the literal "hip"
          if k ≠ PyVal.vStr "hip" then Except.error TupleErr.kindEntryNotHip
          else
            match rest2 with
            | [] =>
              -- arity 3: no branch assigns `max_len`
              _handle_tuple_tail (buf :: buf_len :: rest) buf buf_len "ll" none PyVal.vNone
            | o :: _ =>
              -- `len(dep) > 3`: `hip_opts = dep[3]`, `max_len = 4`
              _handle_tuple_tail (buf :: buf_len :: rest) buf buf_len "ll" (some 4) o)
     | _ => Except.error TupleErr.lenEntryNotInt)
  | _ =>
    -- unreachable: `_handle_tuple` has already checked `len(dep) >= 2`
    Except.error TupleErr.tooFewEntries

/-- `_LinkerDependencyHandler._handle_tuple` (lines 391-475), with the file
system abstracted as `readFile` and the list of file paths read before
returning (successfully or with an error) recorded as the second component. -/
def _handle_tuple (readFile : String → List Nat) (dep : List PyVal) :
    Except TupleErr TupleParse × List String :=
  if dep.length < 2 then (Except.error TupleErr.tooFewEntries, [])
  else if isFilepathForm dep then _handle_tuple_filepath readFile dep
  else (_handle_tuple_buffer dep, [])

/-- A malformed tuple specification in the sense of the claim: wrong arity
for the selected form, wrong type of the length entry, or unknown kind
string (the valid forms being the six listed by the source). -/
def malformedTuple (dep : List PyVal) : Bool :=
  dep.length < 2 ||
  (if isFilepathForm dep then
    (if dep.getD 1 PyVal.vNone == PyVal.vStr "hip" then 3 < dep.length
     else 2 < dep.length)
   else
    (match dep.getD 1 PyVal.vNone with
     | PyVal.vNone => false
     | PyVal.vInt _ => false
     | _ => true) ||
    (2 < dep.length && dep.getD 2 PyVal.vNone ≠ PyVal.vStr "hip") ||
    4 < dep.length)

/-- Whether an `Except` result is an error. -/
def exceptErr {ε α : Type} : Except ε α → Bool
  | Except.error _ => true
  | Except.ok _ => false

/-- Whether an erroneous `_handle_tuple` result enumerates the valid tuple
formats in its message. -/
def errEnumeratesFormats {α : Type} : Except TupleErr α → Bool
  | Except.error e => e.enumeratesValidFormats
  | Except.ok _ => false

/-- `LLVM_IR_EXT` (line 111): file extensions interpreted as LLVM IR/BC
('ptx' is interpreted as 'll'). -/
def LLVM_IR_EXT : List String := ["ll", "bc", "ptx"]

/-- `os.path.basename(filepath).split(os.path.extsep)[-1]` as used throughout
`codegen.py`: the part of the basename after the last dot (the whole basename
when it contains no dot). -/
def fileExtension (filepath : String) : String :=
  (((filepath.splitOn "/").getLastD "").splitOn ".").getLastD ""

/-- The filter predicate building `non_llvm_linking_files` in
`HIPCodeLibrary._reduce_states` (lines 1269-1282): a string dependency whose
extension is not in `LLVM_IR_EXT`, or a tuple dependency of length exactly 3
whose third entry is not in `LLVM_IR_EXT`. -/
def _reduce_states_flag : Dep → Bool
  | Dep.lib _ => false
  | Dep.path s => decide (fileExtension s ∉ LLVM_IR_EXT)
  | Dep.tup _ t =>
    t.length == 3 &&
      (match t.getD 2 PyVal.vNone with
       | PyVal.vStr e => decide (e ∉ LLVM_IR_EXT)
       | _ => true)

/-- Python truthiness of a walked dependency, as tested element-wise by
`any(non_llvm_linking_files)`: an empty path string or an empty tuple is
falsy, everything else (objects, non-empty strings/tuples) is truthy. -/
def Dep.truthy : Dep → Bool
  | Dep.lib _ => true
  | Dep.path s => decide (s ≠ "")
  | Dep.tup _ t => decide (t ≠ [])

/-- `HIPCodeLibrary._reduce_states` (lines 1260-1303), restricted to its
raise behaviour: raises when some walked dependency passes the non-LLVM
filter and is truthy (`any(...)`), then when the library is not finalized.
The serialized record built on success (names, raw sources and the
per-architecture caches) concerns fields outside this model and is returned
as `()`. -/
def _reduce_states (library : Lib) : Except String Unit :=
  let non_llvm_linking_files :=
    (_walk_linking_dependencies library false).filter _reduce_states_flag
  if non_llvm_linking_files.any Dep.truthy then
    Except.error "Cannot pickle HIPCodeLibrary with linking files and buffers"
  else if library.finalized = false then
    Except.error "Cannot pickle unfinalized HIPCodeLibrary"
  else
    Except.ok ()

/-- A dependency that `_reduce_states` actually lets through: a nested code
library; a file path that is empty (falsy) or has an IR/BC extension; or a
tuple that does not have exactly three entries, or whose third entry is one
of the IR/BC extension strings. -/
def serializableDep : Dep → Bool
  | Dep.lib _ => true
  | Dep.path s => s == "" || decide (fileExtension s ∈ LLVM_IR_EXT)
  | Dep.tup _ t =>
    t.length != 3 ||
      (match t.getD 2 PyVal.vNone with
       | PyVal.vStr e => decide (e ∈ LLVM_IR_EXT)
       | _ => false)

/-- Classification following the spec's words (§4.3 table and §4.6): a
dependency is of non-IR (device-source) kind when it is a file path whose
extension is not an IR/BC extension, or a tuple specification that encodes a
HIP C++ source (it contains the kind string "hip"); used only to compare the
code against the claimed serialization failure condition. -/
def specDeviceSourceKind : Dep → Bool
  | Dep.lib _ => false
  | Dep.path s => decide (fileExtension s ∉ LLVM_IR_EXT)
  | Dep.tup _ t => t.any (fun v => v == PyVal.vStr "hip")

/-- Configuration errors of the `HIPCodeLibrary` mutation entry points. -/
inductive ConfigErr where
  | unfinalizedDependency : ConfigErr
  | alreadyFinalized : ConfigErr
  | badTupleArity : ConfigErr
  | badDependencyType : ConfigErr
deriving DecidableEq

/-- Modelled from the spec: `CodeLibrary._ensure_finalized` lives in the
`numba.core.codegen` base class (not under `src/`); per spec §4.5 it raises
exactly when the library has not been finalized.  Reports whether the check
fails. -/
def _ensure_finalized_fails (library : Lib) : Bool :=
  !library.finalized

/-- Modelled from the spec: `CodeLibrary._raise_if_finalized` lives in the
`numba.core.codegen` base class (not under `src/`); per spec §4.5 the
finalize transition is one-way and guards mutation, so the check raises
exactly when the library is already finalized.  Reports whether the check
fails. -/
def _raise_if_finalized_fails (library : Lib) : Bool :=
  library.finalized

/-- Appends one dependency to `_linking_dependencies`. -/
def Lib.appendDep : Lib → Dep → Lib
  | Lib.mk i f ds, d => Lib.mk i f (ds ++ [d])

/-- `HIPCodeLibrary.add_linking_library` (lines 1151-1173): first
`library._ensure_finalized()` (the dependency must already be finalized),
then `self._raise_if_finalized()` (this library must still be open), then
the append.  Returns the state of `self` after the call together with the
raised error, if any. -/
def add_linking_library (self library : Lib) : Lib × Option ConfigErr :=
  if _ensure_finalized_fails library then
    (self, some ConfigErr.unfinalizedDependency)
  else if _raise_if_finalized_fails self then
    (self, some ConfigErr.alreadyFinalized)
  else
    (self.appendDep (Dep.lib library), none)

/-- `HIPCodeLibrary.add_linking_dependency` (lines 1175-1215): code
libraries are routed through `add_linking_library`; file paths are appended
directly; tuples are appended after the arity-2/3/4 check; anything else is
a `TypeError` (not representable in `Dep`, so only the three supported
shapes appear here). -/
def add_linking_dependency (self : Lib) (dependency : Dep) : Lib × Option ConfigErr :=
  match dependency with
  | Dep.lib l => add_linking_library self l
  | Dep.path s => (self.appendDep (Dep.path s), none)
  | Dep.tup j t =>
    if t.length = 2 ∨ t.length = 3 ∨ t.length = 4 then
      (self.appendDep (Dep.tup j t), none)
    else
      (self, some ConfigErr.badTupleArity)

/-- Python's `\w` for the ASCII text the IR post-processor rewrites:
letters, digits and the underscore. -/
def isWordChar (c : Char) : Bool := c.isAlphanum || c = '_'

/-- `re.sub` of the compiled pattern `_TYPED_PTR = re.compile(r"\w+\*+")`
(line 84) with replacement "ptr", as applied by step 2 of
`HIPCodeLibrary._postprocess_llvm_ir` (line 892): leftmost scan; a match
starting at a word character takes the maximal word run, requires at least
one immediately following `*`, and consumes all consecutive `*`s; on a word
run not followed by `*`, no match can start inside the run (every suffix of
the run still ends at the same non-`*` character), so the scanner emits the
run and continues after it. -/
def _TYPED_PTR_sub : List Char → List Char
  | [] => []
  | c :: cs =>
    if isWordChar c then
      if (cs.dropWhile isWordChar).head? = some '*' then
        'p' :: 't' :: 'r' ::
          _TYPED_PTR_sub ((cs.dropWhile isWordChar).dropWhile (fun d => d == '*'))
      else
        (c :: cs.takeWhile isWordChar) ++ _TYPED_PTR_sub (cs.dropWhile isWordChar)
    else
      c :: _TYPED_PTR_sub cs
termination_by s => s.length
decreasing_by
  · have h1 : (cs.dropWhile isWordChar).length ≤ cs.length :=
      (List.dropWhile_sublist _).length_le
    rename_i hstar
    rcases hr : cs.dropWhile isWordChar with _ | ⟨a, tail⟩
    · rw [hr] at hstar; simp at hstar
    · rw [hr] at hstar h1
      simp only [List.head?] at hstar
      have ha : a = '*' := by injection hstar
      have h2 : (List.dropWhile (fun d => d == '*') (a :: tail)).length ≤ tail.length := by
        rw [ha, List.dropWhile_cons_of_pos (by simp)]
        exact (List.dropWhile_sublist _).length_le
      simp only [List.length_cons] at h1 ⊢
      omega
  · have h1 : (cs.dropWhile isWordChar).length ≤ cs.length :=
      (List.dropWhile_sublist _).length_le
    simp only [List.length_cons]
    omega
  · simp

/-- Step 2 of `HIPCodeLibrary._postprocess_llvm_ir` (lines 889-892): the
typed-pointer normalization is only run when the text contains a `*` at all
(the short-circuit noted as a significant optimization in the source). -/
def ptrNormalizeStep (llvm_str : List Char) : List Char :=
  if '*' ∈ llvm_str then _TYPED_PTR_sub llvm_str else llvm_str

/-- No word character is immediately followed by a `*`: the texts on which
the `\w+\*+` pattern has no match. -/
def noWordStar : List Char → Bool
  | [] => true
  | [_] => true
  | a :: b :: rest => (!(isWordChar a) || !(b == '*')) && noWordStar (b :: rest)

/-- An LLVM IR/BC buffer (`bytes`), abstracted as a list of byte values. -/
abbrev LLVMBuf := List Nat

/-- The external collaborators of `HIPCodeLibrary.get_linked_llvm_ir` for a
fixed library: the already-collected linker inputs (`_get_linker_inputs`),
the HIP device library provider (`hipdevicelib.get_llvm_module`), and the
external linker (`llvmutils.link_modules`).  `link_modules_fn` receives the
list of modules to merge; the `to_bc` flag only selects the output encoding
of the external linker and is not modelled. -/
structure LinkEnv where
  linker_inputs : List LLVMBuf
  hipdevicelib_module : String → LLVMBuf
  link_modules_fn : List LLVMBuf → LLVMBuf

/-- The linked-IR caches of one `HIPCodeLibrary`
(`_linked_amdgpu_llvm_ir_cache` and
`_linked_amdgpu_llvm_ir_with_hipdevicelib_cache`, lines 552-556, both keyed
by the architecture string) together with a count of the
`llvmutils.link_modules` invocations made on behalf of this library. -/
structure LinkedIRCaches where
  linked_amdgpu_llvm_ir_cache : List (String × LLVMBuf)
  linked_amdgpu_llvm_ir_with_hipdevicelib_cache : List (String × LLVMBuf)
  link_modules_calls : Nat
deriving DecidableEq

/-- `dict.get(key, None)` on an architecture-keyed cache modelled as an
association list whose most recent insertion comes first. -/
def cacheGet (cache : List (String × LLVMBuf)) (amdgpu_arch : String) : Option LLVMBuf :=
  match cache.find? (fun kv => kv.1 == amdgpu_arch) with
  | some kv => some kv.2
  | none => none

/-- `dict[key] = value` on an architecture-keyed cache: the new binding
shadows any previous one. -/
def cacheSet (cache : List (String × LLVMBuf)) (amdgpu_arch : String) (v : LLVMBuf) :
    List (String × LLVMBuf) :=
  (amdgpu_arch, v) :: cache

/-- Python truthiness of a cache lookup result (`if result:`): missing keys
and empty buffers are falsy. -/
def optTruthy : Option LLVMBuf → Bool
  | some b => decide (b ≠ [])
  | none => false

/-- `HIPCodeLibrary._lookup_linked_llvm_ir` (lines 923-949): with
`link_in_hipdevicelib`, first consult the with-device-library cache, then
the without-device-library cache — on a truthy hit there, link the HIP
device library into the cached module (one more `link_modules` call) and
store the result in the with-device-library cache; without
`link_in_hipdevicelib`, a plain lookup of the without-device-library
cache. -/
def _lookup_linked_llvm_ir (env : LinkEnv) (st : LinkedIRCaches) (amdgpu_arch : String)
    (link_in_hipdevicelib : Bool) : Option LLVMBuf × LinkedIRCaches :=
  if link_in_hipdevicelib then
    let r0 := cacheGet st.linked_amdgpu_llvm_ir_with_hipdevicelib_cache amdgpu_arch
    if optTruthy r0 then (r0, st)
    else
      match cacheGet st.linked_amdgpu_llvm_ir_cache amdgpu_arch with
      | some r =>
        if r.isEmpty then (some r, st)
        else
          let result := env.link_modules_fn [r, env.hipdevicelib_module amdgpu_arch]
          (some result,
           { st with
             linked_amdgpu_llvm_ir_with_hipdevicelib_cache :=
               cacheSet st.linked_amdgpu_llvm_ir_with_hipdevicelib_cache amdgpu_arch result,
             link_modules_calls := st.link_modules_calls + 1 })
      | none => (none, st)
  else
    (cacheGet st.linked_amdgpu_llvm_ir_cache amdgpu_arch, st)

/-- `HIPCodeLibrary.get_linked_llvm_ir` (lines 951-1032) for an explicit
architecture, with `config.DUMP_LLVM` off and the optional mid-end
optimization disabled (both are config-gated side paths): return a truthy
cache lookup; otherwise link the collected linker inputs — appending the
HIP device library module when `link_in_hipdevicelib` — and store the
result.  Lines 1028-1031 of the source store into
`_linked_amdgpu_llvm_ir_cache` in both branches of
`if link_in_hipdevicelib:`, which this definition reproduces. -/
def get_linked_llvm_ir (env : LinkEnv) (st : LinkedIRCaches) (amdgpu_arch : String)
    (link_in_hipdevicelib : Bool) : LLVMBuf × LinkedIRCaches :=
  let looked := _lookup_linked_llvm_ir env st amdgpu_arch link_in_hipdevicelib
  if optTruthy looked.1 then (looked.1.getD [], looked.2)
  else
    let linker_inputs :=
      if link_in_hipdevicelib then
        env.linker_inputs ++ [env.hipdevicelib_module amdgpu_arch]
      else env.linker_inputs
    let linked_llvm := env.link_modules_fn linker_inputs
    (linked_llvm,
     { looked.2 with
       linked_amdgpu_llvm_ir_cache :=
         cacheSet looked.2.linked_amdgpu_llvm_ir_cache amdgpu_arch linked_llvm,
       link_modules_calls := looked.2.link_modules_calls + 1 })

/-- A concrete instantiation of the external collaborators, used to evaluate
`get_linked_llvm_ir` on concrete calls: one linker input, a fixed device
library module per architecture, and a linker that concatenates its inputs
and appends a marker byte (so distinct link invocations are observable). -/
def demoLinkEnv : LinkEnv :=
  { linker_inputs := [[1]]
    hipdevicelib_module := fun _ => [2]
    link_modules_fn := fun ms => ms.foldl (fun acc m => acc ++ m) [] ++ [7] }

/-- The caches of a freshly constructed library: empty, no linker calls. -/
def freshLinkedIRCaches : LinkedIRCaches := ⟨[], [], 0⟩

/-!
Theorems.  Each claim-level theorem refers to the definitions above; helper
lemmas precede the claim theorems they support.
-/

/-- C1: the claim that a second `get_linked_llvm_ir` call with unchanged
arguments returns the identical object without a second `link_modules`
invocation fails on the code: with the default `link_in_hipdevicelib=True`,
the first call stores its result in `_linked_amdgpu_llvm_ir_cache` (lines
1028-1031 store into that cache in both branches), so the second call misses
the with-device-library cache, finds the first result in the
without-device-library cache, invokes `link_modules` again to link the
device library in once more, and returns a different object.  Evaluated here
on a concrete environment: the second call's result differs from the first
and the `link_modules` invocation count rises from 1 to 2. -/
theorem get_linked_llvm_ir_second_call_relinks :
    (get_linked_llvm_ir demoLinkEnv
        (get_linked_llvm_ir demoLinkEnv freshLinkedIRCaches "gfx90a" true).2
        "gfx90a" true).1
      ≠ (get_linked_llvm_ir demoLinkEnv freshLinkedIRCaches "gfx90a" true).1
    ∧ (get_linked_llvm_ir demoLinkEnv freshLinkedIRCaches "gfx90a" true).2.link_modules_calls
        = 1
    ∧ (get_linked_llvm_ir demoLinkEnv
        (get_linked_llvm_ir demoLinkEnv freshLinkedIRCaches "gfx90a" true).2
        "gfx90a" true).2.link_modules_calls = 2 := by
  decide

/-- C2 counterexample: `_remove_duplicates` does not keep the earliest
occurrence of an identity — on the tagged list `[(0, "x"), (0, "y")]` it
returns `["y"]` (the latest occurrence), while the claimed behaviour
(`keepEarliestSpec`, written from the claim's words) returns `["x"]`. -/
theorem remove_duplicates_not_earliest :
    _remove_duplicates [((0 : Nat), "x"), (0, "y")] = ["y"]
    ∧ keepEarliestSpec [((0 : Nat), "x"), (0, "y")] [] = ["x"] := by
  decide

/-- C3: for the dependency graph in which library `A` depends on the file
path "B" and on library `C`, and `C` depends on the file path "B", the
pre-order linearization is `[A, B, C, B]` and the deduplicated collector
output is `[A, C, B]`. -/
theorem dedup_example_A_B_C_B :
    _walk_linking_dependencies
        (Lib.mk 1 true [Dep.path "B", Dep.lib (Lib.mk 2 true [Dep.path "B"])]) false
      = [Dep.lib (Lib.mk 1 true [Dep.path "B", Dep.lib (Lib.mk 2 true [Dep.path "B"])]),
         Dep.path "B",
         Dep.lib (Lib.mk 2 true [Dep.path "B"]),
         Dep.path "B"]
    ∧ get_linker_inputs (fun d => d)
        (Lib.mk 1 true [Dep.path "B", Dep.lib (Lib.mk 2 true [Dep.path "B"])])
      = [Dep.lib (Lib.mk 1 true [Dep.path "B", Dep.lib (Lib.mk 2 true [Dep.path "B"])]),
         Dep.lib (Lib.mk 2 true [Dep.path "B"]),
         Dep.path "B"] := by
  exact ⟨rfl, rfl⟩

/-- C4: for every library, the pre-order walk yields the library itself
first, the post-order walk yields it last, and the two walks are
permutations of each other (the same multiset of nodes). -/
theorem walk_first_last_perm (L : Lib) :
    (_walk_linking_dependencies L false).head? = some (Dep.lib L)
    ∧ (_walk_linking_dependencies L true).getLast? = some (Dep.lib L)
    ∧ (_walk_linking_dependencies L false).Perm (_walk_linking_dependencies L true) := by
  cases L with
  | mk i f ds =>
    refine ⟨?_, ?_, ?_⟩
    · simp [_walk_linking_dependencies]
    · simp [_walk_linking_dependencies]
    · simp only [_walk_linking_dependencies, if_neg, if_pos, List.append_nil, List.nil_append]
      simpa using
        @List.perm_append_comm Dep [Dep.lib (Lib.mk i f ds)] (_walk_deps_list ds)

/-- C5: the tuple dependency form `(buffer, len, "hip")` with `len` an int
or `None` — listed as valid by the source's own docstrings (lines 400-401
and 1194-1195) — is not accepted: the buffer branch of `_handle_tuple`
assigns `max_len` only for arity ≤ 2 or arity > 3, so for this arity-3 form
the final `if len(dep) > max_len` check raises Python's
`UnboundLocalError`.  Evaluated here for both a `None` and an int length. -/
theorem hip_buffer_tuple_unbound_max_len :
    _handle_tuple (fun _ => []) [PyVal.vStr "__device__ int x;", PyVal.vNone, PyVal.vStr "hip"]
      = (Except.error TupleErr.unboundLocalMaxLen, [])
    ∧ _handle_tuple (fun _ => []) [PyVal.vBytes [104], PyVal.vInt 17, PyVal.vStr "hip"]
      = (Except.error TupleErr.unboundLocalMaxLen, []) := by
  exact ⟨rfl, rfl⟩

/-- C6 counterexample: a malformed file-form tuple is not rejected before
any I/O — for `("dep.bc", "ll", "x")` (wrong arity for the file form) the
file "dep.bc" is read (the returned trace of reads is non-empty) before the
too-many-entries error is raised. -/
theorem malformed_filepath_tuple_read_before_error :
    _handle_tuple (fun _ => [0]) [PyVal.vStr "dep.bc", PyVal.vStr "ll", PyVal.vStr "x"]
      = (Except.error (TupleErr.tooManyEntries 2), ["dep.bc"]) := by
  exact rfl

/-- C7: adding an unfinalized code library as a linking dependency raises
the unfinalized-dependency configuration error — `library._ensure_finalized()`
is checked before anything else in `add_linking_library`, and
`add_linking_dependency` routes library dependencies through it — and the
target library's dependency list is left unchanged (the returned state is
the input state). -/
theorem add_unfinalized_dependency_raises (self library : Lib)
    (h : library.finalized = false) :
    add_linking_library self library = (self, some ConfigErr.unfinalizedDependency)
    ∧ add_linking_dependency self (Dep.lib library)
        = (self, some ConfigErr.unfinalizedDependency) := by
  have hf : _ensure_finalized_fails library = true := by
    simp [_ensure_finalized_fails, h]
  constructor
  · simp [add_linking_library, hf]
  · simp [add_linking_dependency, add_linking_library, hf]

/-- C7 witness: a concrete unfinalized dependency is rejected and the
(here already finalized) target library is returned unchanged. -/
theorem add_unfinalized_dependency_raises_witness :
    (Lib.mk 5 false []).finalized = false
    ∧ add_linking_library (Lib.mk 4 true [Dep.path "a.ll"]) (Lib.mk 5 false [])
        = (Lib.mk 4 true [Dep.path "a.ll"], some ConfigErr.unfinalizedDependency) :=
  ⟨rfl,
   (add_unfinalized_dependency_raises (Lib.mk 4 true [Dep.path "a.ll"])
      (Lib.mk 5 false []) rfl).1⟩

/-- C8 counterexample: a finalized library with the arity-2 device-source
file tuple `("kernels.hip", "hip")` — a dependency of non-IR kind in the
spec's classification — is reduced successfully, because the
`non_llvm_linking_files` filter of `_reduce_states` only flags tuples of
length exactly 3. -/
theorem reduce_states_accepts_hip_file_tuple :
    (Lib.mk 0 true [Dep.tup 1 [PyVal.vStr "kernels.hip", PyVal.vStr "hip"]]).finalized = true
    ∧ specDeviceSourceKind (Dep.tup 1 [PyVal.vStr "kernels.hip", PyVal.vStr "hip"]) = true
    ∧ _reduce_states (Lib.mk 0 true [Dep.tup 1 [PyVal.vStr "kernels.hip", PyVal.vStr "hip"]])
        = Except.ok () := by
  exact ⟨rfl, rfl, rfl⟩

/-- C10: with `post_order=True` only the root library's yield is deferred to
the end — the post-order walk is the pre-order walk with the root moved from
the front to the back — and a nested code library encountered in a
dependency list is walked by the recursive call without the `post_order`
flag, hence yielded before its own dependencies. -/
theorem post_order_defers_only_root :
    (∀ L : Lib,
      _walk_linking_dependencies L true
        = (_walk_linking_dependencies L false).drop 1 ++ [Dep.lib L])
    ∧ (∀ (l : Lib) (rest : List Dep),
      _walk_deps_list (Dep.lib l :: rest)
        = (Dep.lib l :: _walk_deps_list l.deps) ++ _walk_deps_list rest) := by
  constructor
  · intro L
    cases L with
    | mk i f ds => simp [_walk_linking_dependencies]
  · intro l rest
    cases l with
    | mk i f ds => simp [_walk_deps_list, _walk_linking_dependencies, Lib.deps]

/-- The `_remove_duplicates` loop distributes over list append: the seen set
for the second part is the first part's keys (in reverse insertion order) on
top of the initial seen set. -/
theorem remove_duplicates_loop_append {κ α : Type} [DecidableEq κ]
    (xs ys : List (κ × α)) (seen : List κ) :
    _remove_duplicates_loop (xs ++ ys) seen
      = _remove_duplicates_loop xs seen
        ++ _remove_duplicates_loop ys ((xs.map Prod.fst).reverse ++ seen) := by
  induction xs generalizing seen with
  | nil => simp [_remove_duplicates_loop]
  | cons p xs ih =>
    obtain ⟨k, a⟩ := p
    simp only [List.cons_append, _remove_duplicates_loop, List.append_eq, ih (k :: seen),
      List.map_cons, List.reverse_cons, List.append_assoc, List.singleton_append,
      List.nil_append]

/-- `_remove_duplicates` keeps, for each key, exactly the latest occurrence
in the original order. -/
theorem remove_duplicates_eq_keepLatest {κ α : Type} [DecidableEq κ]
    (l : List (κ × α)) :
    _remove_duplicates l = keepLatestSpec l := by
  induction l with
  | nil => rfl
  | cons p l ih =>
    obtain ⟨k, a⟩ := p
    have ih' : (_remove_duplicates_loop l.reverse ([] : List κ)).reverse
        = keepLatestSpec l := ih
    show (_remove_duplicates_loop (((k, a) :: l).reverse) []).reverse = _
    rw [List.reverse_cons, remove_duplicates_loop_append]
    simp only [List.map_reverse, List.reverse_reverse, List.append_nil,
      _remove_duplicates_loop, List.reverse_append, keepLatestSpec]
    by_cases hk : k ∈ l.map Prod.fst
    · simp [hk, ih']
    · simp [hk, ih']

/-- The latest-occurrence filter is a sublist of the entry list, so the
relative order of the kept entries is that of the input. -/
theorem keepLatestSpec_sublist {κ α : Type} [DecidableEq κ] (l : List (κ × α)) :
    (keepLatestSpec l).Sublist (l.map Prod.snd) := by
  induction l with
  | nil => simp [keepLatestSpec]
  | cons p l ih =>
    obtain ⟨k, a⟩ := p
    simp only [keepLatestSpec, List.map_cons]
    by_cases hk : k ∈ l.map Prod.fst
    · simp only [if_pos hk]
      exact ih.cons _
    · simp only [if_neg hk]
      exact ih.cons₂ _

/-- C2 (amended): for every ordered list of (identity, entry) pairs,
`_remove_duplicates` keeps, for each identity, its latest occurrence in the
original order and drops every earlier occurrence (`keepLatestSpec`), and
the output is a sublist of the input entries, so the relative order of the
kept entries is unchanged. -/
theorem remove_duplicates_keeps_latest {κ α : Type} [DecidableEq κ]
    (l : List (κ × α)) :
    _remove_duplicates l = keepLatestSpec l
    ∧ (_remove_duplicates l).Sublist (l.map Prod.snd) := by
  refine ⟨remove_duplicates_eq_keepLatest l, ?_⟩
  rw [remove_duplicates_eq_keepLatest l]
  exact keepLatestSpec_sublist l

/-- Pointwise reading of the `_reduce_states` raise condition: a walked
dependency survives serialization exactly when it is not both flagged by the
non-LLVM filter and truthy. -/
theorem serializableDep_eq (d : Dep) :
    serializableDep d = !(_reduce_states_flag d && Dep.truthy d) := by
  cases d with
  | lib l => rfl
  | path s =>
    by_cases hs : s = ""
    · subst hs; simp [serializableDep, _reduce_states_flag, Dep.truthy]
    · simp [serializableDep, _reduce_states_flag, Dep.truthy, hs, decide_not]
  | tup j t =>
    by_cases h3 : t.length = 3
    · have hne : t ≠ [] := by
        intro h; rw [h] at h3; simp at h3
      simp only [serializableDep, _reduce_states_flag, Dep.truthy, h3]
      cases hm : t.getD 2 PyVal.vNone with
      | vStr e => simp [hne, decide_not]
      | vInt n => simp [hne]
      | vNone => simp [hne]
      | vList l => simp [hne]
      | vBytes b => simp [hne]
    · have hb : (t.length == 3) = false := by
        simp [h3]
      simp [serializableDep, _reduce_states_flag, bne, hb]

/-- C8 (amended): `_reduce_states` succeeds exactly when the library is
finalized and every walked dependency is serializable in the sense the code
actually checks — a nested library, an empty or IR/BC-extension file path,
or a tuple that is not an arity-3 tuple with a non-IR third entry.
Device-source tuples of arity 2 or 4 count as serializable here, which is
what the counterexample exhibits against the original claim. -/
theorem reduce_states_ok_iff (library : Lib) :
    _reduce_states library = Except.ok ()
      ↔ (library.finalized = true
         ∧ ∀ d ∈ _walk_linking_dependencies library false, serializableDep d = true) := by
  unfold _reduce_states
  cases hany :
      ((_walk_linking_dependencies library false).filter _reduce_states_flag).any Dep.truthy
  with
  | true =>
    simp only [hany, if_true]
    constructor
    · intro h; cases h
    · rintro ⟨hf, hall⟩
      exfalso
      rw [List.any_eq_true] at hany
      obtain ⟨d, hdmem, hdt⟩ := hany
      rw [List.mem_filter] at hdmem
      have hser := hall d hdmem.1
      rw [serializableDep_eq, hdmem.2, hdt] at hser
      simp at hser
  | false =>
    simp only [hany, Bool.false_eq_true, if_false]
    cases hfin : library.finalized with
    | false =>
      simp only [hfin, if_pos rfl]
      constructor
      · intro h; cases h
      · rintro ⟨hf, _⟩; cases hf
    | true =>
      have hc : (library.finalized = false) = False := by
        simp [hfin]
      simp only [hfin, hc, if_false]
      constructor
      · intro _
        refine ⟨by simp [hfin], ?_⟩
        intro d hd
        rw [serializableDep_eq]
        cases hflag : _reduce_states_flag d with
        | false => simp
        | true =>
          have hdf : d ∈ (_walk_linking_dependencies library false).filter
              _reduce_states_flag :=
            List.mem_filter.mpr ⟨hd, hflag⟩
          rw [List.any_eq_false] at hany
          have := hany d hdf
          simp_all
      · intro _; rfl

/-- When the tuple has more entries than the assigned `max_len`, the common
tail of `_handle_tuple` raises — either the option-type error or the
too-many-entries error, both of which enumerate the valid formats. -/
theorem handle_tuple_tail_too_long (dep : List PyVal) (buf buf_len : PyVal)
    (input_kind : String) (m : Nat) (hip_opts : PyVal) (hm : m < dep.length) :
    exceptErr (_handle_tuple_tail dep buf buf_len input_kind (some m) hip_opts) = true
    ∧ errEnumeratesFormats (_handle_tuple_tail dep buf buf_len input_kind (some m) hip_opts)
        = true := by
  unfold _handle_tuple_tail
  cases hip_opts with
  | vStr s =>
    by_cases hs : s = ""
    · subst hs
      simp [PyVal.truthy, hm, exceptErr, errEnumeratesFormats,
        TupleErr.enumeratesValidFormats]
    · simp [PyVal.truthy, hs, hm, exceptErr, errEnumeratesFormats,
        TupleErr.enumeratesValidFormats]
  | vList l =>
    cases l with
    | nil =>
      simp [PyVal.truthy, hm, exceptErr, errEnumeratesFormats,
        TupleErr.enumeratesValidFormats]
    | cons x xs =>
      simp [PyVal.truthy, hm, exceptErr, errEnumeratesFormats,
        TupleErr.enumeratesValidFormats]
  | vNone =>
    simp [PyVal.truthy, hm, exceptErr, errEnumeratesFormats,
      TupleErr.enumeratesValidFormats]
  | vInt n =>
    by_cases hn : n = 0
    · subst hn
      simp [PyVal.truthy, hm, exceptErr, errEnumeratesFormats,
        TupleErr.enumeratesValidFormats]
    · simp [PyVal.truthy, hn, hm, exceptErr, errEnumeratesFormats,
        TupleErr.enumeratesValidFormats]
  | vBytes b =>
    cases b with
    | nil =>
      simp [PyVal.truthy, hm, exceptErr, errEnumeratesFormats,
        TupleErr.enumeratesValidFormats]
    | cons x xs =>
      simp [PyVal.truthy, hm, exceptErr, errEnumeratesFormats,
        TupleErr.enumeratesValidFormats]

/-- C6 (amended): malformed tuple specifications (wrong arity for the
selected form, wrong type of the length entry, unknown kind string) always
raise — `_handle_tuple` performs no compiler or linker invocation at all —
and the error enumerates the valid formats whenever the tuple has at least
two entries (and a string path when interpreted as a file form); buffer-form
tuples are rejected before any I/O (their trace of file reads is empty, as
it is for every buffer-form tuple), while file-form tuples read the named
file before the arity and option checks, as the counterexample shows. -/
theorem handle_tuple_malformed_amended :
    (∀ (readFile : String → List Nat) (dep : List PyVal),
        isFilepathForm dep = false → (_handle_tuple readFile dep).2 = [])
    ∧ (∀ (readFile : String → List Nat) (dep : List PyVal),
        malformedTuple dep = true →
        (isFilepathForm dep = true → ∃ p, dep.getD 0 PyVal.vNone = PyVal.vStr p) →
        exceptErr (_handle_tuple readFile dep).1 = true
        ∧ (2 ≤ dep.length →
            errEnumeratesFormats (_handle_tuple readFile dep).1 = true)) := by
  constructor
  · intro rf dep hno
    unfold _handle_tuple
    by_cases hl : dep.length < 2
    · simp [hl]
    · simp [hl, hno]
  · intro rf dep hmal hpath
    rcases dep with _ | ⟨d0, _ | ⟨d1, rest⟩⟩
    · exact ⟨rfl, fun h => absurd h (by simp)⟩
    · exact ⟨rfl, fun h => absurd h (by simp)⟩
    have hlen2 : ¬((d0 :: d1 :: rest).length < 2) := by
      simp
    by_cases hfp : isFilepathForm (d0 :: d1 :: rest) = true
    · obtain ⟨p, hp⟩ := hpath hfp
      have hp0 : d0 = PyVal.vStr p := by
        simpa [List.getD] using hp
      subst hp0
      have h1 : d1 = PyVal.vStr "ll" ∨ d1 = PyVal.vStr "hip" := by
        simpa [isFilepathForm, List.getD] using hfp
      rcases h1 with h1 | h1 <;> subst h1
      · cases rest with
        | nil =>
          exfalso
          simp [malformedTuple, isFilepathForm] at hmal
        | cons a rest2 =>
          have harity : 2 < (PyVal.vStr p :: PyVal.vStr "ll" :: a :: rest2).length := by
            simp only [List.length_cons]
            omega
          have hstep : (_handle_tuple rf (PyVal.vStr p :: PyVal.vStr "ll" :: a :: rest2)).1
              = _handle_tuple_tail (PyVal.vStr p :: PyVal.vStr "ll" :: a :: rest2)
                  (PyVal.vBytes (rf p)) PyVal.vNone "ll" (some 2) PyVal.vNone := by
            unfold _handle_tuple
            rw [if_neg hlen2, if_pos hfp]
            rfl
          rw [hstep]
          obtain ⟨he, hen⟩ :=
            handle_tuple_tail_too_long (PyVal.vStr p :: PyVal.vStr "ll" :: a :: rest2)
              (PyVal.vBytes (rf p)) PyVal.vNone "ll" 2 PyVal.vNone harity
          exact ⟨he, fun _ => hen⟩
      · cases rest with
        | nil =>
          exfalso
          simp [malformedTuple, isFilepathForm] at hmal
        | cons o rest2 =>
          cases rest2 with
          | nil =>
            exfalso
            simp [malformedTuple, isFilepathForm] at hmal
          | cons b rest3 =>
            have harity :
                3 < (PyVal.vStr p :: PyVal.vStr "hip" :: o :: b :: rest3).length := by
              simp only [List.length_cons]
              omega
            have hstep :
                (_handle_tuple rf (PyVal.vStr p :: PyVal.vStr "hip" :: o :: b :: rest3)).1
                = _handle_tuple_tail (PyVal.vStr p :: PyVal.vStr "hip" :: o :: b :: rest3)
                    (PyVal.vBytes (rf p)) PyVal.vNone "hip" (some 3) o := by
              unfold _handle_tuple
              rw [if_neg hlen2, if_pos hfp]
              rfl
            rw [hstep]
            obtain ⟨he, hen⟩ :=
              handle_tuple_tail_too_long
                (PyVal.vStr p :: PyVal.vStr "hip" :: o :: b :: rest3)
                (PyVal.vBytes (rf p)) PyVal.vNone "hip" 3 o harity
            exact ⟨he, fun _ => hen⟩
    · have hfpb : isFilepathForm (d0 :: d1 :: rest) = false := by
        simpa using hfp
      have hstep : (_handle_tuple rf (d0 :: d1 :: rest)).1
          = _handle_tuple_buffer (d0 :: d1 :: rest) := by
        unfold _handle_tuple
        rw [if_neg hlen2, if_neg hfp]
      rw [hstep]
      cases d1 with
      | vStr s => exact ⟨rfl, fun _ => rfl⟩
      | vList l => exact ⟨rfl, fun _ => rfl⟩
      | vBytes b => exact ⟨rfl, fun _ => rfl⟩
      | vNone =>
        cases rest with
        | nil =>
          exfalso
          simp [malformedTuple, isFilepathForm] at hmal
        | cons k rest2 =>
          by_cases hk : k = PyVal.vStr "hip"
          · subst hk
            cases rest2 with
            | nil =>
              exfalso
              simp [malformedTuple, isFilepathForm] at hmal
            | cons o rest3 =>
              cases rest3 with
              | nil =>
                exfalso
                simp [malformedTuple, isFilepathForm] at hmal
              | cons q rest4 =>
                have h4 : 4 < (d0 :: PyVal.vNone :: PyVal.vStr "hip" :: o :: q
                    :: rest4).length := by
                  simp only [List.length_cons]
                  omega
                have hbuf : _handle_tuple_buffer
                      (d0 :: PyVal.vNone :: PyVal.vStr "hip" :: o :: q :: rest4)
                    = _handle_tuple_tail
                        (d0 :: PyVal.vNone :: PyVal.vStr "hip" :: o :: q :: rest4)
                        d0 PyVal.vNone "ll" (some 4) o := by
                  simp [_handle_tuple_buffer]
                rw [hbuf]
                obtain ⟨he, hen⟩ :=
                  handle_tuple_tail_too_long
                    (d0 :: PyVal.vNone :: PyVal.vStr "hip" :: o :: q :: rest4)
                    d0 PyVal.vNone "ll" 4 o h4
                exact ⟨he, fun _ => hen⟩
          · have hbuf : _handle_tuple_buffer (d0 :: PyVal.vNone :: k :: rest2)
                = Except.error TupleErr.kindEntryNotHip := by
              simp [_handle_tuple_buffer, hk]
            rw [hbuf]
            exact ⟨rfl, fun _ => rfl⟩
      | vInt n =>
        cases rest with
        | nil =>
          exfalso
          simp [malformedTuple, isFilepathForm] at hmal
        | cons k rest2 =>
          by_cases hk : k = PyVal.vStr "hip"
          · subst hk
            cases rest2 with
            | nil =>
              exfalso
              simp [malformedTuple, isFilepathForm] at hmal
            | cons o rest3 =>
              cases rest3 with
              | nil =>
                exfalso
                simp [malformedTuple, isFilepathForm] at hmal
              | cons q rest4 =>
                have h4 : 4 < (d0 :: PyVal.vInt n :: PyVal.vStr "hip" :: o :: q
                    :: rest4).length := by
                  simp only [List.length_cons]
                  omega
                have hbuf : _handle_tuple_buffer
                      (d0 :: PyVal.vInt n :: PyVal.vStr "hip" :: o :: q :: rest4)
                    = _handle_tuple_tail
                        (d0 :: PyVal.vInt n :: PyVal.vStr "hip" :: o :: q :: rest4)
                        d0 (PyVal.vInt n) "ll" (some 4) o := by
                  simp [_handle_tuple_buffer]
                rw [hbuf]
                obtain ⟨he, hen⟩ :=
                  handle_tuple_tail_too_long
                    (d0 :: PyVal.vInt n :: PyVal.vStr "hip" :: o :: q :: rest4)
                    d0 (PyVal.vInt n) "ll" 4 o h4
                exact ⟨he, fun _ => hen⟩
          · have hbuf : _handle_tuple_buffer (d0 :: PyVal.vInt n :: k :: rest2)
                = Except.error TupleErr.kindEntryNotHip := by
              simp [_handle_tuple_buffer, hk]
            rw [hbuf]
            exact ⟨rfl, fun _ => rfl⟩

/-- C6 witness: the buffer-form tuple `("b", "notanint", "hip")` is malformed
(its length entry is not an int or `None`); `_handle_tuple` rejects it with
an error that enumerates the valid formats, before any file read. -/
theorem handle_tuple_malformed_amended_witness :
    malformedTuple [PyVal.vStr "b", PyVal.vStr "notanint", PyVal.vStr "hip"] = true
    ∧ (_handle_tuple (fun _ => [])
        [PyVal.vStr "b", PyVal.vStr "notanint", PyVal.vStr "hip"]).2 = []
    ∧ exceptErr (_handle_tuple (fun _ => [])
        [PyVal.vStr "b", PyVal.vStr "notanint", PyVal.vStr "hip"]).1 = true
    ∧ errEnumeratesFormats (_handle_tuple (fun _ => [])
        [PyVal.vStr "b", PyVal.vStr "notanint", PyVal.vStr "hip"]).1 = true := by
  refine ⟨by decide, ?_, ?_, ?_⟩
  · exact handle_tuple_malformed_amended.1 (fun _ => [])
      [PyVal.vStr "b", PyVal.vStr "notanint", PyVal.vStr "hip"] (by decide)
  · exact (handle_tuple_malformed_amended.2 (fun _ => [])
      [PyVal.vStr "b", PyVal.vStr "notanint", PyVal.vStr "hip"] (by decide)
      (fun _ => ⟨"b", rfl⟩)).1
  · exact (handle_tuple_malformed_amended.2 (fun _ => [])
      [PyVal.vStr "b", PyVal.vStr "notanint", PyVal.vStr "hip"] (by decide)
      (fun _ => ⟨"b", rfl⟩)).2 (by decide)

/-- A word character is never the `*` character. -/
theorem word_ne_star {b : Char} (h : isWordChar b = true) : b ≠ '*' := by
  intro hb
  subst hb
  exact absurd h (by decide)

/-- Dropping the tail of a text without word-character-before-`*` pairs. -/
theorem noWordStar_tail {a : Char} {l : List Char} (h : noWordStar (a :: l) = true) :
    noWordStar l = true := by
  cases l with
  | nil => rfl
  | cons b m =>
    have h2 := h
    simp only [noWordStar, Bool.and_eq_true] at h2
    exact h2.2

/-- `noWordStar` restricts to suffixes. -/
theorem noWordStar_suffix (xs ys : List Char) (h : noWordStar (xs ++ ys) = true) :
    noWordStar ys = true := by
  induction xs with
  | nil => exact h
  | cons x xs ih => exact ih (noWordStar_tail h)

/-- Prepending a non-word character preserves `noWordStar`. -/
theorem noWordStar_cons_of_not_word {a : Char} {l : List Char}
    (ha : isWordChar a = false) (hl : noWordStar l = true) :
    noWordStar (a :: l) = true := by
  cases l with
  | nil => rfl
  | cons b m =>
    simp only [noWordStar, Bool.and_eq_true]
    exact ⟨by simp [ha], hl⟩

/-- Prepending any character before a text whose head is not `*` preserves
`noWordStar`. -/
theorem noWordStar_cons (a : Char) (l : List Char)
    (hhead : ∀ x, l.head? = some x → x ≠ '*') (hl : noWordStar l = true) :
    noWordStar (a :: l) = true := by
  cases l with
  | nil => rfl
  | cons b m =>
    have hb : b ≠ '*' := hhead b rfl
    simp only [noWordStar, Bool.and_eq_true]
    refine ⟨?_, hl⟩
    simp [hb]

/-- Prepending the replacement text "ptr" before a text whose head is not `*`
preserves `noWordStar`. -/
theorem noWordStar_ptr_cons (l : List Char)
    (hhead : ∀ x, l.head? = some x → x ≠ '*') (hl : noWordStar l = true) :
    noWordStar ('p' :: 't' :: 'r' :: l) = true := by
  have h1 : noWordStar ('r' :: l) = true := noWordStar_cons 'r' l hhead hl
  simp only [noWordStar, Bool.and_eq_true]
  exact ⟨by decide, by decide, h1⟩

/-- Prepending a run of word characters before a text whose head is not `*`
preserves `noWordStar`. -/
theorem noWordStar_allword_append (ws l : List Char)
    (hws : ∀ x ∈ ws, isWordChar x = true)
    (hhead : ∀ x, l.head? = some x → x ≠ '*') (hl : noWordStar l = true) :
    noWordStar (ws ++ l) = true := by
  induction ws with
  | nil => exact hl
  | cons w ws ih =>
    have hih : noWordStar (ws ++ l) = true :=
      ih (fun x hx => hws x (List.mem_cons_of_mem _ hx))
    refine noWordStar_cons w (ws ++ l) ?_ hih
    intro x hx
    cases ws with
    | nil => exact hhead x hx
    | cons w2 ws2 =>
      have hw2 : x = w2 := by
        simp only [List.cons_append, List.head?_cons] at hx
        exact (Option.some.inj hx).symm
      subst hw2
      exact word_ne_star (hws _ (by simp))

/-- The head of a `dropWhile` result fails the predicate. -/
theorem dropWhile_head_not (p : Char → Bool) (l : List Char) (x : Char)
    (hx : (l.dropWhile p).head? = some x) : p x = false := by
  induction l with
  | nil => simp [List.dropWhile] at hx
  | cons a m ih =>
    by_cases hp : p a = true
    · rw [List.dropWhile_cons_of_pos hp] at hx
      exact ih hx
    · rw [List.dropWhile_cons_of_neg hp] at hx
      simp only [List.head?_cons] at hx
      obtain rfl : a = x := Option.some.inj hx
      simpa using hp

/-- The substitution never puts a `*` at the head unless the input already
has one there. -/
theorem sub_head_not_star (l : List Char)
    (h : ∀ x, l.head? = some x → x ≠ '*') :
    ∀ x, (_TYPED_PTR_sub l).head? = some x → x ≠ '*' := by
  intro x hx
  cases l with
  | nil => simp [_TYPED_PTR_sub] at hx
  | cons c cs =>
    by_cases hw : isWordChar c = true
    · by_cases hstar : (cs.dropWhile isWordChar).head? = some '*'
      · have hrw : _TYPED_PTR_sub (c :: cs)
            = 'p' :: 't' :: 'r' ::
              _TYPED_PTR_sub ((cs.dropWhile isWordChar).dropWhile (fun d => d == '*')) := by
          unfold _TYPED_PTR_sub
          rw [if_pos hw, if_pos hstar, _TYPED_PTR_sub.eq_def]
        rw [hrw] at hx
        simp only [List.head?_cons] at hx
        obtain rfl : 'p' = x := Option.some.inj hx
        decide
      · have hrw : _TYPED_PTR_sub (c :: cs)
            = (c :: cs.takeWhile isWordChar)
              ++ _TYPED_PTR_sub (cs.dropWhile isWordChar) := by
          unfold _TYPED_PTR_sub
          rw [if_pos hw, if_neg hstar, _TYPED_PTR_sub.eq_def]
        rw [hrw] at hx
        simp only [List.cons_append, List.head?_cons] at hx
        obtain rfl : c = x := Option.some.inj hx
        exact h c rfl
    · have hrw : _TYPED_PTR_sub (c :: cs) = c :: _TYPED_PTR_sub cs := by
        unfold _TYPED_PTR_sub
        rw [if_neg hw, _TYPED_PTR_sub.eq_def]
      rw [hrw] at hx
      simp only [List.head?_cons] at hx
      obtain rfl : c = x := Option.some.inj hx
      exact h c rfl

/-- After one pass of the substitution no word character is immediately
followed by a `*`: the output contains no match of the `\w+\*+` pattern. -/
theorem noWordStar_sub (l : List Char) : noWordStar (_TYPED_PTR_sub l) = true := by
  induction l using _TYPED_PTR_sub.induct with
  | case1 => simp [_TYPED_PTR_sub, noWordStar]
  | case2 c cs hw hstar ih =>
    have hrw : _TYPED_PTR_sub (c :: cs)
        = 'p' :: 't' :: 'r' ::
          _TYPED_PTR_sub ((cs.dropWhile isWordChar).dropWhile (fun d => d == '*')) := by
      unfold _TYPED_PTR_sub
      rw [if_pos hw, if_pos hstar, _TYPED_PTR_sub.eq_def]
    rw [hrw]
    refine noWordStar_ptr_cons _ ?_ ih
    refine sub_head_not_star _ ?_
    intro x hx
    have hpx := dropWhile_head_not (fun d => d == '*') _ x hx
    simpa using hpx
  | case3 c cs hw hstar ih =>
    have hrw : _TYPED_PTR_sub (c :: cs)
        = (c :: cs.takeWhile isWordChar) ++ _TYPED_PTR_sub (cs.dropWhile isWordChar) := by
      unfold _TYPED_PTR_sub
      rw [if_pos hw, if_neg hstar, _TYPED_PTR_sub.eq_def]
    rw [hrw]
    refine noWordStar_allword_append _ _ ?_ ?_ ih
    · intro x hx
      rcases List.mem_cons.mp hx with h | h
      · subst h; exact hw
      · exact List.mem_takeWhile_imp h
    · refine sub_head_not_star _ ?_
      intro x hx hxeq
      subst hxeq
      exact hstar hx
  | case4 c cs hw ih =>
    have hrw : _TYPED_PTR_sub (c :: cs) = c :: _TYPED_PTR_sub cs := by
      unfold _TYPED_PTR_sub
      rw [if_neg hw, _TYPED_PTR_sub.eq_def]
    rw [hrw]
    exact noWordStar_cons_of_not_word (by simpa using hw) ih

/-- A non-empty run of word characters directly followed by a `*` always
contains a word-character-before-`*` pair. -/
theorem noWordStar_word_star_false (w : Char) (ws l : List Char)
    (hws : ∀ x ∈ w :: ws, isWordChar x = true) :
    noWordStar ((w :: ws) ++ '*' :: l) = false := by
  induction ws generalizing w with
  | nil =>
    have hw : isWordChar w = true := hws w (by simp)
    simp only [List.cons_append, List.nil_append, noWordStar]
    simp [hw]
  | cons w2 ws2 ih =>
    have h2 : noWordStar ((w2 :: ws2) ++ '*' :: l) = false :=
      ih w2 (fun x hx => hws x (by simp only [List.mem_cons] at hx ⊢; tauto))
    simp only [List.cons_append, noWordStar] at h2 ⊢
    simp [h2]

/-- On a text with no `\w+\*+` match the substitution is the identity. -/
theorem sub_of_noWordStar (l : List Char) :
    noWordStar l = true → _TYPED_PTR_sub l = l := by
  induction l using _TYPED_PTR_sub.induct with
  | case1 => intro _; simp [_TYPED_PTR_sub]
  | case2 c cs hw hstar ih =>
    intro hl
    exfalso
    rcases hr : cs.dropWhile isWordChar with _ | ⟨a, tail⟩
    · rw [hr] at hstar; simp at hstar
    · have ha : a = '*' := by
        rw [hr] at hstar
        simpa using hstar
      subst ha
      have hdecomp : c :: cs = (c :: cs.takeWhile isWordChar) ++ ('*' :: tail) := by
        rw [← hr]
        simp [List.takeWhile_append_dropWhile]
      rw [hdecomp] at hl
      rw [noWordStar_word_star_false c (cs.takeWhile isWordChar) tail ?_] at hl
      · cases hl
      · intro x hx
        rcases List.mem_cons.mp hx with h | h
        · subst h; exact hw
        · exact List.mem_takeWhile_imp h
  | case3 c cs hw hstar ih =>
    intro hl
    have hrw : _TYPED_PTR_sub (c :: cs)
        = (c :: cs.takeWhile isWordChar) ++ _TYPED_PTR_sub (cs.dropWhile isWordChar) := by
      unfold _TYPED_PTR_sub
      rw [if_pos hw, if_neg hstar, _TYPED_PTR_sub.eq_def]
    rw [hrw]
    have hsuf : noWordStar (cs.dropWhile isWordChar) = true := by
      have hdecomp : c :: cs
          = (c :: cs.takeWhile isWordChar) ++ cs.dropWhile isWordChar := by
        simp [List.takeWhile_append_dropWhile]
      rw [hdecomp] at hl
      exact noWordStar_suffix _ _ hl
    rw [ih hsuf]
    simp [List.takeWhile_append_dropWhile]
  | case4 c cs hw ih =>
    intro hl
    have hrw : _TYPED_PTR_sub (c :: cs) = c :: _TYPED_PTR_sub cs := by
      unfold _TYPED_PTR_sub
      rw [if_neg hw, _TYPED_PTR_sub.eq_def]
    rw [hrw, ih (noWordStar_tail hl)]

/-- The substitution is a projection: a second pass is the identity. -/
theorem typed_ptr_sub_idem (l : List Char) :
    _TYPED_PTR_sub (_TYPED_PTR_sub l) = _TYPED_PTR_sub l :=
  sub_of_noWordStar _ (noWordStar_sub l)

/-- C9: the pointer-normalization step of the IR post-processor — skip when
no `*` is present, else replace every `\w+\*+` match by "ptr" — is
idempotent: applying it twice yields the same text as applying it once. -/
theorem ptr_normalization_idempotent (llvm_str : List Char) :
    ptrNormalizeStep (ptrNormalizeStep llvm_str) = ptrNormalizeStep llvm_str := by
  by_cases hs : '*' ∈ llvm_str
  · have h1 : ptrNormalizeStep llvm_str = _TYPED_PTR_sub llvm_str := if_pos hs
    rw [h1]
    unfold ptrNormalizeStep
    by_cases hs2 : '*' ∈ _TYPED_PTR_sub llvm_str
    · rw [if_pos hs2]
      exact typed_ptr_sub_idem llvm_str
    · rw [if_neg hs2]
  · have h1 : ptrNormalizeStep llvm_str = llvm_str := if_neg hs
    rw [h1, h1]
